import Mathlib

/-!
Verification of the refactoring extension core logic.

Shallow embedding of the extension source (extension.ts, scopePicker.ts and
the historical variants): text is a list of characters, the editor document
and session bookkeeping are explicit state records, and the host editor
operations (get text in range, replace range, quick pick, diagnostics query)
are embedded at their interface boundary.
-/

namespace RefactoringAgent

/-- Backtick character, written through its code point to keep source clean. -/
def btick : Char := Char.ofNat 96

/-- Triple-backtick markdown fence delimiter matched by the extraction regex. -/
def fence : List Char := [btick, btick, btick]

/-- Whether a character list starts with a triple-backtick fence. -/
def isFence (l : List Char) : Bool :=
  match l with
  | c1 :: c2 :: c3 :: _ => c1 == btick && c2 == btick && c3 == btick
  | _ => false

/-- Whether a triple-backtick fence occurs anywhere in the text. -/
def hasFence : List Char → Bool
  | [] => false
  | c :: cs => isFence (c :: cs) || hasFence cs

/-- Split the text at the first fence occurrence, returning the part before it
and the remainder that starts with the fence. -/
def splitFence : List Char → Option (List Char × List Char)
  | [] => none
  | c :: cs =>
    if isFence (c :: cs) then some ([], c :: cs)
    else
      match splitFence cs with
      | some (pre, rest) => some (c :: pre, rest)
      | none => none

/-- Fuel-indexed computation of the successive non-overlapping matches of the
JavaScript regex (triple backtick, lazily any characters, triple backtick)
used by extractLastMarkdownCodeBlock: each match runs from a fence to the
nearest following fence, and the search resumes after the match. -/
def codeBlockMatchesFuel : Nat → List Char → List (List Char)
  | 0, _ => []
  | fuel + 1, s =>
    match splitFence s with
    | none => []
    | some (_, rest) =>
      match splitFence (rest.drop 3) with
      | none => []
      | some (mid, rest2) =>
        (fence ++ mid ++ fence) :: codeBlockMatchesFuel fuel (rest2.drop 3)

/-- All regex matches of the code-block pattern in the text; the fuel equal to
the text length always suffices since every match consumes at least six
characters. -/
def codeBlockMatches (s : List Char) : List (List Char) :=
  codeBlockMatchesFuel s.length s

/-- Embedding of extractLastMarkdownCodeBlock: the last regex match, or the
empty string when there is none. -/
def extractLastMarkdownCodeBlock (markdown : List Char) : List Char :=
  (codeBlockMatches markdown).getLastD []

/-- Embedding of the JavaScript split on a newline character. -/
def splitOnNl : List Char → List (List Char)
  | [] => [[]]
  | c :: cs =>
    if c = '\n' then [] :: splitOnNl cs
    else
      match splitOnNl cs with
      | [] => [[c]]
      | l :: ls => (c :: l) :: ls

/-- Embedding of the JavaScript array join with a newline separator. -/
def joinNl : List (List Char) → List Char
  | [] => []
  | [l] => l
  | l :: l2 :: ls => l ++ '\n' :: joinNl (l2 :: ls)

/-- Embedding of removeFirstAndLastLine: split into lines, drop the first and
the last line, join back. -/
def removeFirstAndLastLine (text : List Char) : List Char :=
  joinNl (((splitOnNl text).drop 1).dropLast)

/-- Fenced code block with interior body, as produced by a model answer: an
opening fence line carrying the language tag, the body, and a closing fence
line. -/
def rawBlock (interior : List Char) : List Char :=
  fence ++ interior ++ fence

/-- Fenced code block whose first line is the fence plus the language tag and
whose last line is the bare closing fence. -/
def fencedBlock (lang body : List Char) : List Char :=
  rawBlock (lang ++ '\n' :: body ++ ['\n'])

theorem isFence_fence_append (l : List Char) : isFence (fence ++ l) = true := by
  simp [fence, isFence]

theorem splitFence_of_hasFence_eq_false (s : List Char) (h : hasFence s = false) :
    splitFence s = none := by
  induction s with
  | nil => rfl
  | cons c cs ih =>
    rw [hasFence] at h
    simp only [Bool.or_eq_false_iff] at h
    rw [splitFence, if_neg (by simp [h.1]), ih h.2]

theorem isFence_cons_append (a : Char) (xs r : List Char) (hr : isFence r = true) :
    isFence (a :: xs ++ r) = isFence (a :: xs ++ [btick, btick]) := by
  obtain ⟨t, rfl⟩ : ∃ t, r = btick :: btick :: btick :: t := by
    match r with
    | [] => simp [isFence] at hr
    | [c1] => simp [isFence] at hr
    | [c1, c2] => simp [isFence] at hr
    | c1 :: c2 :: c3 :: t =>
      simp only [isFence, Bool.and_eq_true, beq_iff_eq] at hr
      exact ⟨t, by simp [hr.1.1, hr.1.2, hr.2]⟩
  match xs with
  | [] => simp [isFence]
  | [y] => simp [isFence]
  | y :: z :: t2 => simp [isFence]

theorem splitFence_append (P r : List Char)
    (hP : hasFence (P ++ [btick, btick]) = false) (hr : isFence r = true) :
    splitFence (P ++ r) = some (P, r) := by
  induction P with
  | nil =>
    match r, hr with
    | c :: cs, hr => simp [splitFence, hr]
  | cons a P ih =>
    rw [List.cons_append, hasFence] at hP
    simp only [Bool.or_eq_false_iff] at hP
    have hfa : isFence (a :: (P ++ r)) = false := by
      have h3 := isFence_cons_append a P r hr
      rw [List.cons_append, List.cons_append] at h3
      rw [h3]
      exact hP.1
    rw [List.cons_append, splitFence, if_neg (by simp [hfa]), ih hP.2]

theorem fence_append_drop (l : List Char) : (fence ++ l).drop 3 = l := rfl

theorem codeBlockMatchesFuel_of_hasFence_eq_false (fuel : Nat) (s : List Char)
    (h : hasFence s = false) : codeBlockMatchesFuel fuel s = [] := by
  cases fuel with
  | zero => rfl
  | succ n => rw [codeBlockMatchesFuel, splitFence_of_hasFence_eq_false s h]

theorem codeBlockMatchesFuel_step (fuel : Nat) (P X T : List Char)
    (hP : hasFence (P ++ [btick, btick]) = false)
    (hX : hasFence (X ++ [btick, btick]) = false) :
    codeBlockMatchesFuel (fuel + 1) (P ++ rawBlock X ++ T)
      = rawBlock X :: codeBlockMatchesFuel fuel T := by
  have hshape : P ++ rawBlock X ++ T = P ++ (fence ++ (X ++ (fence ++ T))) := by
    simp [rawBlock, List.append_assoc]
  have h1 : splitFence (P ++ (fence ++ (X ++ (fence ++ T))))
      = some (P, fence ++ (X ++ (fence ++ T))) :=
    splitFence_append P _ hP (isFence_fence_append _)
  have h2 : splitFence (X ++ (fence ++ T)) = some (X, fence ++ T) :=
    splitFence_append X _ hX (isFence_fence_append _)
  rw [hshape, codeBlockMatchesFuel]
  simp only [h1, fence_append_drop, h2, rawBlock]

theorem splitOnNl_ne_nil (l : List Char) : splitOnNl l ≠ [] := by
  cases l with
  | nil => simp [splitOnNl]
  | cons c cs =>
    rw [splitOnNl]
    split
    · simp
    · split <;> simp

theorem splitOnNl_exists_cons (l : List Char) : ∃ x xs, splitOnNl l = x :: xs := by
  cases h : splitOnNl l with
  | nil => exact absurd h (splitOnNl_ne_nil l)
  | cons x xs => exact ⟨x, xs, rfl⟩

theorem splitOnNl_no_nl (l : List Char) (h : '\n' ∉ l) : splitOnNl l = [l] := by
  induction l with
  | nil => rfl
  | cons c cs ih =>
    simp only [List.mem_cons, not_or] at h
    rw [splitOnNl, if_neg (fun hc => h.1 hc.symm), ih h.2]

theorem splitOnNl_cons_head (X Y : List Char) (hX : '\n' ∉ X) :
    splitOnNl (X ++ '\n' :: Y) = X :: splitOnNl Y := by
  induction X with
  | nil => simp [splitOnNl]
  | cons a X ih =>
    simp only [List.mem_cons, not_or] at hX
    rw [List.cons_append, splitOnNl, if_neg (fun hc => hX.1 hc.symm), ih hX.2]

theorem splitOnNl_append_last (B F : List Char) (hF : '\n' ∉ F) :
    splitOnNl (B ++ '\n' :: F) = splitOnNl B ++ [F] := by
  induction B with
  | nil => simp [splitOnNl, splitOnNl_no_nl F hF]
  | cons c B ih =>
    by_cases hc : c = '\n'
    · subst hc
      rw [List.cons_append, splitOnNl, if_pos rfl, ih, splitOnNl, if_pos rfl,
        List.cons_append]
    · obtain ⟨l, ls, hB⟩ := splitOnNl_exists_cons B
      rw [List.cons_append, splitOnNl, if_neg hc, ih, hB, splitOnNl, if_neg hc, hB]
      rfl

theorem joinNl_cons_cons (a b : List Char) (bs : List (List Char)) :
    joinNl (a :: b :: bs) = a ++ '\n' :: joinNl (b :: bs) := rfl

theorem joinNl_splitOnNl (l : List Char) : joinNl (splitOnNl l) = l := by
  induction l with
  | nil => rfl
  | cons c cs ih =>
    obtain ⟨x, xs, h⟩ := splitOnNl_exists_cons cs
    by_cases hc : c = '\n'
    · subst hc
      rw [splitOnNl, if_pos rfl, h, joinNl_cons_cons, ← h, ih]
      rfl
    · rw [splitOnNl, if_neg hc, h]
      rw [h] at ih
      cases xs with
      | nil =>
        simp only [joinNl] at ih ⊢
        rw [ih]
      | cons y ys =>
        rw [joinNl_cons_cons] at ih
        rw [joinNl_cons_cons, List.cons_append, ih]

theorem removeFirstAndLastLine_fencedBlock (lang body : List Char)
    (hlang : '\n' ∉ lang) :
    removeFirstAndLastLine (fencedBlock lang body) = body := by
  have hshape : fencedBlock lang body = (fence ++ lang) ++ '\n' :: (body ++ '\n' :: fence) := by
    simp [fencedBlock, rawBlock, List.append_assoc]
  have hnl1 : '\n' ∉ fence ++ lang := by
    simp only [List.mem_append, not_or]
    exact ⟨by decide, hlang⟩
  rw [removeFirstAndLastLine, hshape, splitOnNl_cons_head _ _ hnl1,
    splitOnNl_append_last body fence (by decide), List.drop_succ_cons,
    List.drop_zero, List.dropLast_concat, joinNl_splitOnNl]

theorem codeBlockMatches_two (P X1 M X2 S : List Char)
    (hP : hasFence (P ++ [btick, btick]) = false)
    (hX1 : hasFence (X1 ++ [btick, btick]) = false)
    (hM : hasFence (M ++ [btick, btick]) = false)
    (hX2 : hasFence (X2 ++ [btick, btick]) = false)
    (hS : hasFence S = false) :
    codeBlockMatches (P ++ rawBlock X1 ++ M ++ rawBlock X2 ++ S)
      = [rawBlock X1, rawBlock X2] := by
  obtain ⟨k, hk⟩ : ∃ k, (P ++ rawBlock X1 ++ M ++ rawBlock X2 ++ S).length = k + 2 :=
    ⟨(P ++ rawBlock X1 ++ M ++ rawBlock X2 ++ S).length - 2, by
      simp [rawBlock, fence, List.length_append]
      omega⟩
  have hs1 : P ++ rawBlock X1 ++ M ++ rawBlock X2 ++ S
      = P ++ rawBlock X1 ++ (M ++ rawBlock X2 ++ S) := by
    simp [List.append_assoc]
  rw [codeBlockMatches, hk, hs1, codeBlockMatchesFuel_step (k + 1) P X1 _ hP hX1,
    codeBlockMatchesFuel_step k M X2 S hM hX2,
    codeBlockMatchesFuel_of_hasFence_eq_false k S hS]

/-- C3: for an input made of two well-formed fenced code blocks A then B, with
no stray triple-backtick fence elsewhere, extractLastMarkdownCodeBlock returns
block B (never block A), and removeFirstAndLastLine then strips B's opening
fence line carrying the language tag and B's closing fence line, leaving
exactly B's interior; and for any input containing no triple-backtick fence,
extractLastMarkdownCodeBlock returns the empty string. -/
theorem claim_C3_last_block_extraction
    (P lang1 body1 M lang2 body2 S : List Char)
    (hP : hasFence (P ++ [btick, btick]) = false)
    (hX1 : hasFence ((lang1 ++ '\n' :: body1 ++ ['\n']) ++ [btick, btick]) = false)
    (hM : hasFence (M ++ [btick, btick]) = false)
    (hX2 : hasFence ((lang2 ++ '\n' :: body2 ++ ['\n']) ++ [btick, btick]) = false)
    (hS : hasFence S = false)
    (hlang2 : '\n' ∉ lang2) :
    extractLastMarkdownCodeBlock
        (P ++ fencedBlock lang1 body1 ++ M ++ fencedBlock lang2 body2 ++ S)
      = fencedBlock lang2 body2
    ∧ removeFirstAndLastLine (extractLastMarkdownCodeBlock
        (P ++ fencedBlock lang1 body1 ++ M ++ fencedBlock lang2 body2 ++ S))
      = body2
    ∧ ∀ T : List Char, hasFence T = false → extractLastMarkdownCodeBlock T = [] := by
  have he : extractLastMarkdownCodeBlock
      (P ++ fencedBlock lang1 body1 ++ M ++ fencedBlock lang2 body2 ++ S)
      = fencedBlock lang2 body2 := by
    rw [extractLastMarkdownCodeBlock]
    simp only [fencedBlock]
    rw [codeBlockMatches_two P _ M _ S hP hX1 hM hX2 hS]
    rfl
  refine ⟨he, ?_, ?_⟩
  · rw [he, removeFirstAndLastLine_fencedBlock lang2 body2 hlang2]
  · intro T hT
    rw [extractLastMarkdownCodeBlock, codeBlockMatches,
      codeBlockMatchesFuel_of_hasFence_eq_false _ T hT]
    rfl

/-- Witness for C3 at a concrete two-block model answer. -/
theorem claim_C3_witness :
    extractLastMarkdownCodeBlock
        ("Intro ".toList ++ fencedBlock "js".toList "let a = 1;".toList
          ++ " then ".toList ++ fencedBlock "ts".toList "let b = 2;".toList
          ++ " end".toList)
      = fencedBlock "ts".toList "let b = 2;".toList
    ∧ removeFirstAndLastLine (extractLastMarkdownCodeBlock
        ("Intro ".toList ++ fencedBlock "js".toList "let a = 1;".toList
          ++ " then ".toList ++ fencedBlock "ts".toList "let b = 2;".toList
          ++ " end".toList))
      = "let b = 2;".toList
    ∧ ∀ T : List Char, hasFence T = false → extractLastMarkdownCodeBlock T = [] :=
  claim_C3_last_block_extraction "Intro ".toList "js".toList "let a = 1;".toList
    " then ".toList "ts".toList "let b = 2;".toList " end".toList
    (by decide) (by decide) (by decide) (by decide) (by decide) (by decide)

/-- Editor position, a line and column pair. -/
structure Pos where
  line : Nat
  col : Nat
deriving DecidableEq, Repr

/-- Host Range.contains ordering on positions: before or equal. -/
def posLE (a b : Pos) : Bool :=
  Nat.blt a.line b.line || (a.line == b.line && Nat.ble a.col b.col)

/-- Symbol returned by the structural-outline query. The children field of a
DocumentSymbol is a list of nested symbols; a flat SymbolInformation result
lacks the children property, which is recorded by hasChildrenField. -/
inductive RawSymbol where
  | mk (rangeStart rangeEnd : Pos) (hasChildrenField : Bool)
      (children : List RawSymbol)

/-- Start of the range of the symbol. -/
def RawSymbol.rangeStart : RawSymbol → Pos
  | .mk s _ _ _ => s

/-- End of the range of the symbol. -/
def RawSymbol.rangeEnd : RawSymbol → Pos
  | .mk _ e _ _ => e

/-- Whether the symbol object carries a children property. -/
def RawSymbol.hasChildrenField : RawSymbol → Bool
  | .mk _ _ h _ => h

/-- Nested symbols of the symbol. -/
def RawSymbol.children : RawSymbol → List RawSymbol
  | .mk _ _ _ cs => cs

/-- Embedding of scopePicker's findEnclosingSymbol: walk the symbol trees,
descending into whichever symbol range contains the position, accumulating
the chain of enclosing symbols outermost first. -/
def findEnclosingSymbol : List RawSymbol → Pos → Option (List RawSymbol)
  | [], _ => none
  | RawSymbol.mk rs re hcf cs :: rest, p =>
    if posLE rs p && posLE p re then
      match findEnclosingSymbol cs p with
      | some chain => some (RawSymbol.mk rs re hcf cs :: chain)
      | none => some [RawSymbol.mk rs re hcf cs]
    else
      findEnclosingSymbol rest p

/-- Check used by selectRange to reject a flat SymbolInformation array: the
result is nonempty and its first element lacks the children property. -/
def headLacksChildren : List RawSymbol → Bool
  | [] => false
  | s :: _ => !s.hasChildrenField

/-- Editor state seen by the scope picker: the current selection plus the
document extent needed by selectAll. -/
structure EditorState where
  selStart : Pos
  selEnd : Pos
  lineCount : Nat
  lastLineLen : Nat
deriving DecidableEq, Repr

/-- Embedding of scopePicker's selectAll: select from the document start to
the end of the last line. -/
def selectAll (e : EditorState) : EditorState :=
  { e with
      selStart := ⟨0, 0⟩
      selEnd := ⟨e.lineCount - 1, e.lastLineLen⟩ }

/-- Embedding of scopePicker's selectRange. The outline is the result of the
structural-outline query (none models an undefined result), cursor is the
active position of the selection, and pick is the quick-pick oracle giving
the item the user confirms, or none on cancel. Returns the success flag and
the resulting editor state. -/
def selectRange (e : EditorState) (outline : Option (List RawSymbol))
    (cursor : Pos) (pick : List RawSymbol → Option RawSymbol) :
    Bool × EditorState :=
  match outline with
  | none => (false, e)
  | some result =>
    if headLacksChildren result then (false, e)
    else
      match findEnclosingSymbol result cursor with
      | some (s :: chain) =>
        (match pick ((s :: chain).reverse) with
         | none => (false, e)
         | some sym =>
           (true, { e with
                      selStart := sym.rangeStart
                      selEnd := sym.rangeEnd }))
      | _ => (true, selectAll e)

/-- C5 as stated is false: when the structural-outline query returns no
outline (undefined), or returns a flat list lacking nesting information,
selectRange reports failure and leaves the selection unchanged instead of
falling back to selecting the entire document with success. -/
theorem claim_C5_counterexample :
    (selectRange ⟨⟨1, 0⟩, ⟨1, 0⟩, 4, 7⟩ none ⟨1, 0⟩ (fun _ => none)).1 = false
    ∧ (selectRange ⟨⟨1, 0⟩, ⟨1, 0⟩, 4, 7⟩ none ⟨1, 0⟩ (fun _ => none)).2
        = ⟨⟨1, 0⟩, ⟨1, 0⟩, 4, 7⟩
    ∧ (selectRange ⟨⟨1, 0⟩, ⟨1, 0⟩, 4, 7⟩
          (some [RawSymbol.mk ⟨0, 0⟩ ⟨3, 0⟩ false []]) ⟨1, 0⟩
          (fun _ => none)).1 = false
    ∧ (selectRange ⟨⟨1, 0⟩, ⟨1, 0⟩, 4, 7⟩
          (some [RawSymbol.mk ⟨0, 0⟩ ⟨3, 0⟩ false []]) ⟨1, 0⟩
          (fun _ => none)).2 = ⟨⟨1, 0⟩, ⟨1, 0⟩, 4, 7⟩ := by
  refine ⟨rfl, rfl, rfl, rfl⟩

/-- C5 amended: only when an outline with nesting information is returned and
no symbol encloses the cursor does selectRange fall back to selecting the
entire document and report success; an undefined outline result, or a flat
list lacking nesting information, makes selectRange report failure with the
selection unchanged. -/
theorem claim_C5_scope_fallback (e : EditorState) (cursor : Pos)
    (pick : List RawSymbol → Option RawSymbol) (result : List RawSymbol)
    (hshape : headLacksChildren result = false)
    (hnone : findEnclosingSymbol result cursor = none) :
    selectRange e (some result) cursor pick = (true, selectAll e)
    ∧ (∀ (e2 : EditorState) (c2 : Pos) (p2 : List RawSymbol → Option RawSymbol),
        selectRange e2 none c2 p2 = (false, e2))
    ∧ (∀ (e2 : EditorState) (c2 : Pos) (p2 : List RawSymbol → Option RawSymbol)
        (r2 : List RawSymbol), headLacksChildren r2 = true →
        selectRange e2 (some r2) c2 p2 = (false, e2)) := by
  refine ⟨?_, fun e2 c2 p2 => rfl, fun e2 c2 p2 r2 h2 => by
    simp [selectRange, h2]⟩
  simp [selectRange, hshape, hnone]

/-- Witness for the amended C5 at a concrete outline whose only symbol does
not enclose the cursor. -/
theorem claim_C5_witness :
    headLacksChildren [RawSymbol.mk ⟨0, 0⟩ ⟨1, 0⟩ true []] = false
    ∧ findEnclosingSymbol [RawSymbol.mk ⟨0, 0⟩ ⟨1, 0⟩ true []] ⟨5, 0⟩ = none
    ∧ selectRange ⟨⟨5, 0⟩, ⟨5, 0⟩, 9, 4⟩
        (some [RawSymbol.mk ⟨0, 0⟩ ⟨1, 0⟩ true []]) ⟨5, 0⟩ (fun _ => none)
      = (true, selectAll ⟨⟨5, 0⟩, ⟨5, 0⟩, 9, 4⟩) := by
  have hc : (posLE ⟨0, 0⟩ ⟨5, 0⟩ && posLE ⟨5, 0⟩ ⟨1, 0⟩) = false := by decide
  have hnone : findEnclosingSymbol [RawSymbol.mk ⟨0, 0⟩ ⟨1, 0⟩ true []] ⟨5, 0⟩
      = none := by
    simp [findEnclosingSymbol, hc]
  exact ⟨by decide, hnone,
    (claim_C5_scope_fallback ⟨⟨5, 0⟩, ⟨5, 0⟩, 9, 4⟩ ⟨5, 0⟩ (fun _ => none)
      [RawSymbol.mk ⟨0, 0⟩ ⟨1, 0⟩ true []] (by decide) hnone).1⟩

/-- Embedding of IRefactoringTarget: the immutable snapshot serialized into
the preview identity. -/
structure RefTarget where
  documentPath : String
  documentVersion : Nat
  selectionStartLine : Nat
  selectionStartCharacter : Nat
  selectionEndLine : Nat
  selectionEndCharacter : Nat
deriving DecidableEq, Repr

/-- Editor selection as four coordinates, mirroring a vscode Selection. -/
structure Sel where
  startLine : Nat
  startChar : Nat
  endLine : Nat
  endChar : Nat
deriving DecidableEq, Repr

/-- Selection built from the coordinates stored in a refactoring target, as
done by both applyRefactoring and restoreOriginalContents. -/
def targetSel (t : RefTarget) : Sel :=
  ⟨t.selectionStartLine, t.selectionStartCharacter,
    t.selectionEndLine, t.selectionEndCharacter⟩

/-- Character offset of a line and column position inside a document text,
the host document positionAt inverse for in-range positions. -/
def offsetOfPos : List Char → Nat → Nat → Nat
  | _, 0, ch => ch
  | [], _ + 1, ch => ch
  | c :: cs, n + 1, ch =>
    1 + (if c = '\n' then offsetOfPos cs n ch else offsetOfPos cs (n + 1) ch)

/-- Host edit replacing the text between two character offsets. -/
def replaceOffsets (text : List Char) (s e : Nat) (repl : List Char) : List Char :=
  text.take s ++ repl ++ text.drop e

/-- Host edit replacing the text covered by a selection. -/
def replaceSelection (text : List Char) (sel : Sel) (repl : List Char) : List Char :=
  replaceOffsets text (offsetOfPos text sel.startLine sel.startChar)
    (offsetOfPos text sel.endLine sel.endChar) repl

/-- Embedding of saveOriginalDocument: record the content for the path in the
originalDocs map (a later lookup sees the newest entry). -/
def saveOriginalDocument (path : String) (content : List Char)
    (m : List (String × List Char)) : List (String × List Char) :=
  (path, content) :: m

/-- Embedding of getOriginalDocument: look the path up in originalDocs. -/
def getOriginalDocument (path : String) (m : List (String × List Char)) :
    Option (List Char) :=
  m.lookup path

/-- Diagnostic marker as returned by the host diagnostics query; severity 0 is
DiagnosticSeverity.Error. -/
structure Diagnostic where
  message : List Char
  severity : Nat
  startLine : Nat
deriving DecidableEq, Repr

/-- Severity value of an error diagnostic. -/
def severityError : Nat := 0

/-- One harvested line per diagnostic, message plus start line number. -/
def diagnosticLine (d : Diagnostic) : List Char :=
  d.message ++ (" line " ++ toString d.startLine ++ "\n").toList

/-- Embedding of captureDiagnosticsForDocument: if at least one diagnostic of
error severity exists, the result accumulates one line for every diagnostic
of the document whatever its severity or location; otherwise it is empty. -/
def captureDiagnosticsForDocument (diags : List Diagnostic) : List Char :=
  let errors := diags.filter (fun d => d.severity == severityError)
  if errors.length > 0 then
    diags.foldl (fun acc d => acc ++ diagnosticLine d) []
  else
    []

/-- Session-level mutable state of the extension: the target document text
and version stamp, the editor selection, the originalDocs history map, the
capturedDiagnostics holder and the information messages shown so far. -/
structure SessionState where
  docText : List Char
  docVersion : Nat
  selection : Sel
  originalDocs : List (String × List Char)
  capturedDiagnostics : List Char
  messages : List String
deriving DecidableEq, Repr

/-- Message shown by applyRefactoring when the version stamp check fails. -/
def staleMessage : String :=
  "The editor contents has changed. It is no longer possible to apply the suggested refactoring."

/-- Message shown by applyRefactoring when the host edit reports failure. -/
def applyFailedMessage : String :=
  "Failed to apply the suggested refactoring."

/-- Embedding of applyRefactoring after the target annotation has been decoded
and the target document reopened: refuse with the stale message if the
document version no longer equals the captured version; otherwise replace the
target selection with the replacement text and record the pre-edit text in
originalDocs, or report failure if the host edit fails (editOk models the
promise returned by the host edit). -/
def applyRefactoring (st : SessionState) (captured : RefTarget)
    (replacement : List Char) (editOk : Bool) : SessionState :=
  if st.docVersion ≠ captured.documentVersion then
    { st with messages := st.messages ++ [staleMessage] }
  else if editOk then
    { st with
        docText := replaceSelection st.docText (targetSel captured) replacement
        docVersion := st.docVersion + 1
        originalDocs := saveOriginalDocument captured.documentPath st.docText
          st.originalDocs }
  else
    { st with messages := st.messages ++ [applyFailedMessage] }

/-- JavaScript truthiness of the looked-up original content: an absent entry
and an empty string are both falsy. -/
def truthyContent : Option (List Char) → Bool
  | none => false
  | some s => !s.isEmpty

/-- Embedding of restoreOriginalContents: look up the stored original text for
the target path; when truthy, capture the document diagnostics, replace the
full document text with the stored original and restore the selection stored
in the target; otherwise do nothing. -/
def restoreOriginalContents (st : SessionState) (target : RefTarget)
    (diags : List Diagnostic) : SessionState :=
  let originalContent := getOriginalDocument target.documentPath st.originalDocs
  if truthyContent originalContent then
    { st with
        capturedDiagnostics := captureDiagnosticsForDocument diags
        docText := replaceOffsets st.docText 0 st.docText.length
          (originalContent.getD [])
        docVersion := st.docVersion + 1
        selection := targetSel target }
  else
    st

/-- Preamble put before the captured diagnostics in the follow-up prompt. -/
def diagnosticsPreamble : String :=
  "The previous suggestion has added the following errors:"

/-- Embedding of the diagnostics handling at the start of
suggestAnotherRefactoring: build the diagnostics prompt fragment from the
captured value when it is nonempty, then clear the captured value. -/
def suggestAnotherDiagnostics (st : SessionState) : List Char × SessionState :=
  let fragment :=
    if st.capturedDiagnostics.length ≠ 0 then
      diagnosticsPreamble.toList ++ '\n' :: st.capturedDiagnostics ++ ['\n']
    else []
  (fragment, { st with capturedDiagnostics := [] })

/-- C1: when the reopened target document's version stamp differs from the
version captured in the refactoring target, applyRefactoring leaves the
document text, version, selection and history untouched and only reports the
stale-target message; no edit is attempted against the new version. -/
theorem claim_C1_version_guard (st : SessionState) (t : RefTarget)
    (replacement : List Char) (editOk : Bool)
    (h : st.docVersion ≠ t.documentVersion) :
    (applyRefactoring st t replacement editOk).docText = st.docText
    ∧ (applyRefactoring st t replacement editOk).docVersion = st.docVersion
    ∧ (applyRefactoring st t replacement editOk).selection = st.selection
    ∧ (applyRefactoring st t replacement editOk).originalDocs = st.originalDocs
    ∧ (applyRefactoring st t replacement editOk).messages
        = st.messages ++ [staleMessage] := by
  simp [applyRefactoring, h]

/-- Witness for C1: a concrete stale apply attempt changes nothing but the
message list. -/
theorem claim_C1_witness :
    (7 : Nat) ≠ 8
    ∧ (applyRefactoring ⟨"old".toList, 7, ⟨0, 0, 0, 3⟩, [], [], []⟩
          ⟨"/a.ts", 8, 0, 0, 0, 3⟩ "new".toList true).docText = "old".toList
    ∧ (applyRefactoring ⟨"old".toList, 7, ⟨0, 0, 0, 3⟩, [], [], []⟩
          ⟨"/a.ts", 8, 0, 0, 0, 3⟩ "new".toList true).messages
        = [staleMessage] :=
  ⟨by decide,
    (claim_C1_version_guard ⟨"old".toList, 7, ⟨0, 0, 0, 3⟩, [], [], []⟩
      ⟨"/a.ts", 8, 0, 0, 0, 3⟩ "new".toList true (by decide)).1,
    (claim_C1_version_guard ⟨"old".toList, 7, ⟨0, 0, 0, 3⟩, [], [], []⟩
      ⟨"/a.ts", 8, 0, 0, 0, 3⟩ "new".toList true (by decide)).2.2.2.2⟩

/-- C2 as stated is false for a document whose captured text is empty: the
apply step stores the empty string in the history map, and the truthiness
check in restoreOriginalContents then treats it as absent, so the revert does
not restore the document text. -/
theorem claim_C2_counterexample :
    (restoreOriginalContents
        (applyRefactoring ⟨[], 3, ⟨0, 0, 0, 0⟩, [], [], []⟩
          ⟨"/a.ts", 3, 0, 0, 0, 0⟩ "XYZ".toList true)
        ⟨"/a.ts", 3, 0, 0, 0, 0⟩ []).docText = "XYZ".toList := by
  decide

/-- C2 amended: for a document whose text D at apply time is nonempty, a
successful apply that passes the version guard records D in the history map,
and the subsequent restoreOriginalContents restores the document text to
exactly D and the selection to the captured target coordinates. -/
theorem claim_C2_revert_roundtrip (st : SessionState) (t : RefTarget)
    (replacement : List Char) (diags : List Diagnostic)
    (hv : st.docVersion = t.documentVersion)
    (hne : st.docText ≠ []) :
    (applyRefactoring st t replacement true).originalDocs
      = (t.documentPath, st.docText) :: st.originalDocs
    ∧ (restoreOriginalContents (applyRefactoring st t replacement true) t
        diags).docText = st.docText
    ∧ (restoreOriginalContents (applyRefactoring st t replacement true) t
        diags).selection = targetSel t := by
  have h1 : applyRefactoring st t replacement true
      = { st with
            docText := replaceSelection st.docText (targetSel t) replacement
            docVersion := st.docVersion + 1
            originalDocs := (t.documentPath, st.docText) :: st.originalDocs } := by
    simp [applyRefactoring, hv, saveOriginalDocument]
  have h2 : getOriginalDocument t.documentPath
      ((t.documentPath, st.docText) :: st.originalDocs) = some st.docText := by
    simp [getOriginalDocument, List.lookup]
  refine ⟨by rw [h1], ?_, ?_⟩ <;>
    rw [h1] <;>
    simp [restoreOriginalContents, h2, truthyContent, hne, replaceOffsets,
      List.drop_length]

/-- Witness for the amended C2 at a concrete nonempty document. -/
theorem claim_C2_witness :
    (5 : Nat) = 5
    ∧ "abc".toList ≠ []
    ∧ (restoreOriginalContents
        (applyRefactoring ⟨"abc".toList, 5, ⟨0, 1, 0, 2⟩, [], [], []⟩
          ⟨"/b.ts", 5, 0, 1, 0, 2⟩ "Z".toList true)
        ⟨"/b.ts", 5, 0, 1, 0, 2⟩ []).docText = "abc".toList :=
  ⟨rfl, by decide,
    (claim_C2_revert_roundtrip ⟨"abc".toList, 5, ⟨0, 1, 0, 2⟩, [], [], []⟩
      ⟨"/b.ts", 5, 0, 1, 0, 2⟩ "Z".toList [] rfl (by decide)).2.1⟩

/-- C10: an empty-string entry stored in the history map makes
restoreOriginalContents behave exactly as when no entry is present: the state
is returned unchanged, so no edit, no diagnostics capture and no selection
change happen in either case. -/
theorem claim_C10_empty_history_entry (st st2 : SessionState) (t : RefTarget)
    (diags diags2 : List Diagnostic)
    (h : getOriginalDocument t.documentPath st.originalDocs = some [])
    (h2 : getOriginalDocument t.documentPath st2.originalDocs = none) :
    restoreOriginalContents st t diags = st
    ∧ restoreOriginalContents st2 t diags2 = st2 := by
  constructor <;> simp [restoreOriginalContents, truthyContent, h, h2]

/-- Witness for C10: a concrete state with an empty-string entry and one with
no entry are both left unchanged. -/
theorem claim_C10_witness :
    getOriginalDocument "/c.ts" [("/c.ts", ([] : List Char))] = some []
    ∧ getOriginalDocument "/c.ts" [] = none
    ∧ restoreOriginalContents ⟨"body".toList, 1, ⟨0, 0, 0, 4⟩,
        [("/c.ts", [])], [], []⟩ ⟨"/c.ts", 1, 0, 0, 0, 4⟩ []
      = ⟨"body".toList, 1, ⟨0, 0, 0, 4⟩, [("/c.ts", [])], [], []⟩ :=
  ⟨by decide, by decide,
    (claim_C10_empty_history_entry
      ⟨"body".toList, 1, ⟨0, 0, 0, 4⟩, [("/c.ts", [])], [], []⟩
      ⟨"body".toList, 1, ⟨0, 0, 0, 4⟩, [], [], []⟩
      ⟨"/c.ts", 1, 0, 0, 0, 4⟩ [] [] (by decide) (by decide)).1⟩

/-- C8 as stated is false: when at least one error diagnostic exists, the
harvested string also contains diagnostics of other severities and at
arbitrary document lines, with no confinement to the lines touched by the
reverted edit; here a severity-1 warning at line 100 appears in the harvest. -/
theorem claim_C8_counterexample :
    Diagnostic.severity ⟨"unused variable x".toList, 1, 100⟩ ≠ severityError
    ∧ List.IsInfix (diagnosticLine ⟨"unused variable x".toList, 1, 100⟩)
        (captureDiagnosticsForDocument
          [⟨"missing semicolon".toList, 0, 5⟩,
            ⟨"unused variable x".toList, 1, 100⟩]) := by
  constructor
  · decide
  · decide

/-- C8 amended: when at least one error-severity diagnostic exists the
harvested string accumulates one line for every diagnostic of the document,
of any severity and location; when no error exists it is empty; the captured
value is used to build the follow-up prompt fragment and is cleared after
that single use by suggestAnotherRefactoring. -/
theorem claim_C8_diagnostics_capture (diags : List Diagnostic)
    (st : SessionState) :
    ((diags.any fun d => d.severity == severityError) = true →
      captureDiagnosticsForDocument diags
        = diags.foldl (fun acc d => acc ++ diagnosticLine d) [])
    ∧ ((diags.any fun d => d.severity == severityError) = false →
      captureDiagnosticsForDocument diags = [])
    ∧ (suggestAnotherDiagnostics st).2.capturedDiagnostics = []
    ∧ (st.capturedDiagnostics ≠ [] →
        (suggestAnotherDiagnostics st).1
          = diagnosticsPreamble.toList ++ '\n' :: st.capturedDiagnostics
            ++ ['\n']) := by
  refine ⟨?_, ?_, ?_, ?_⟩
  · intro h
    obtain ⟨x, hx, hpx⟩ := List.any_eq_true.mp h
    have hmem : x ∈ diags.filter (fun d => d.severity == severityError) :=
      List.mem_filter.mpr ⟨hx, hpx⟩
    have hlen : 0 < (diags.filter (fun d => d.severity == severityError)).length :=
      List.length_pos.mpr (fun hnil => by simp [hnil] at hmem)
    simp [captureDiagnosticsForDocument, hlen]
  · intro h
    have hnil : diags.filter (fun d => d.severity == severityError) = [] := by
      simp only [List.any_eq_false] at h
      simp only [List.filter_eq_nil_iff]
      exact h
    simp [captureDiagnosticsForDocument, hnil]
  · simp [suggestAnotherDiagnostics]
  · intro h
    simp [suggestAnotherDiagnostics, h]

/-- Witness for the amended C8 at one error plus one warning and a state with
a pending captured value. -/
theorem claim_C8_witness :
    ([⟨"e".toList, 0, 2⟩, ⟨"w".toList, 1, 9⟩] : List Diagnostic).any
        (fun d => d.severity == severityError) = true
    ∧ captureDiagnosticsForDocument
        [⟨"e".toList, 0, 2⟩, ⟨"w".toList, 1, 9⟩]
      = ([⟨"e".toList, 0, 2⟩, ⟨"w".toList, 1, 9⟩] : List Diagnostic).foldl
          (fun acc d => acc ++ diagnosticLine d) []
    ∧ (suggestAnotherDiagnostics
        ⟨[], 0, ⟨0, 0, 0, 0⟩, [], "boom".toList, []⟩).2.capturedDiagnostics = []
    ∧ (suggestAnotherDiagnostics
        ⟨[], 0, ⟨0, 0, 0, 0⟩, [], "boom".toList, []⟩).1
      = diagnosticsPreamble.toList ++ '\n' :: "boom".toList ++ ['\n'] :=
  ⟨by decide,
    (claim_C8_diagnostics_capture [⟨"e".toList, 0, 2⟩, ⟨"w".toList, 1, 9⟩]
      ⟨[], 0, ⟨0, 0, 0, 0⟩, [], "boom".toList, []⟩).1 (by decide),
    (claim_C8_diagnostics_capture [⟨"e".toList, 0, 2⟩, ⟨"w".toList, 1, 9⟩]
      ⟨[], 0, ⟨0, 0, 0, 0⟩, [], "boom".toList, []⟩).2.2.1,
    (claim_C8_diagnostics_capture [⟨"e".toList, 0, 2⟩, ⟨"w".toList, 1, 9⟩]
      ⟨[], 0, ⟨0, 0, 0, 0⟩, [], "boom".toList, []⟩).2.2.2 (by decide)⟩

/-- Token budget applied by the part_006 variant before sending a request. -/
def MAX_TOKENS : Nat := 4000

/-- Chat message of the prompt: the role flag marks prior assistant turns
appended by addHistoryToMessages, and the content is the message text. -/
structure ChatMsg where
  isAssistant : Bool
  content : String
deriving DecidableEq, Repr

/-- Embedding of countTokensInMessages: sum of the tokenizer count of every
message content; the external tiktoken encoder is abstracted as the tok
argument. -/
def countTokensInMessages (tok : String → Nat) (messages : List ChatMsg) : Nat :=
  messages.foldl (fun acc m => acc + tok m.content) 0

/-- Message shown by the part_006 makeRequest when the prompt is over budget. -/
def tooLongMessage : String :=
  "The selected range is too long. Please make the selection smaller."

/-- Title of the preview affordance. -/
def previewButtonTitle : String := "Show Diff & Apply"

/-- Title of the suggest-next affordance of the extension.ts variant. -/
def suggestNextButtonTitle : String := "$(thumbsup) Suggest Next"

/-- Title of the suggest-another affordance of the extension.ts variant. -/
def suggestAnotherButtonTitle : String := "$(thumbsdown) Suggest Another"

/-- Title of the suggest-another affordance of the part_006 variant. -/
def plainAnotherButtonTitle : String := "Suggest Another"

/-- Observable outcome of a makeRequest call: whether the model request was
sent, which affordance buttons were streamed, and the information message
shown, if any. -/
structure RequestOutcome where
  requestSent : Bool
  buttons : List String
  message : Option String
deriving DecidableEq, Repr

/-- Embedding of the part_006 makeRequest: check the token budget and fail
without sending when over it; otherwise send, stream the response and offer
the preview and suggest-another buttons only when the response contains a
fenced code block. -/
def makeRequestPart006 (tok : String → Nat) (messages : List ChatMsg)
    (response : List Char) : RequestOutcome :=
  if countTokensInMessages tok messages > MAX_TOKENS then
    { requestSent := false, buttons := [], message := some tooLongMessage }
  else
    { requestSent := true
      buttons :=
        if (extractLastMarkdownCodeBlock response).length > 0 then
          [previewButtonTitle, plainAnotherButtonTitle]
        else []
      message := none }

/-- Embedding of the button production in the extension.ts makeRequest: the
three buttons are streamed whenever the raw streamed response is nonempty,
with no code-block check. -/
def makeRequestButtonsV1 (suggestedRefactoring : List Char) : List String :=
  if suggestedRefactoring.length > 0 then
    [previewButtonTitle, suggestNextButtonTitle, suggestAnotherButtonTitle]
  else []

/-- Embedding of the agent followupProvider: followups are offered only when
the suggestedRefactoring of the result is nonempty. -/
def provideFollowups (suggestedRefactoring : List Char) : List String :=
  if suggestedRefactoring.length > 0 then
    [previewButtonTitle, suggestNextButtonTitle, suggestAnotherButtonTitle]
  else []

/-- Embedding of IRefactoringResult with the target already decoded. -/
structure RefactoringResult where
  originalCode : List Char
  suggestedRefactoring : List Char
  refactoringTarget : RefTarget

/-- Embedding of showPreview: extract the last code block of the suggestion;
when none is found return without publishing any preview, otherwise publish
the pair of original text and the code block stripped of its fence lines. -/
def showPreview (arg : RefactoringResult) : Option (List Char × List Char) :=
  let codeBlock := extractLastMarkdownCodeBlock arg.suggestedRefactoring
  if codeBlock.length = 0 then none
  else some (arg.originalCode, removeFirstAndLastLine codeBlock)

/-- Modelled from the spec: the budget policy claimed by C6, which is not
present in any source variant. The spec says a session over budget first
drops prior-assistant-turn context and rechecks, and only fails when still
over budget; the returned value is the message list actually sent, or none
for the selection-too-large failure. -/
def budgetCheckSpec (tok : String → Nat) (messages : List ChatMsg) :
    Option (List ChatMsg) :=
  if countTokensInMessages tok messages ≤ MAX_TOKENS then some messages
  else
    let trimmed := messages.filter (fun m => !m.isAssistant)
    if countTokensInMessages tok trimmed ≤ MAX_TOKENS then some trimmed
    else none

/-- C6 as stated is false: on a prompt that is over budget only because of
prior assistant turns, the code fails immediately with the too-long message
and sends nothing, while the claimed policy would drop the assistant context
and send the trimmed prompt. -/
theorem claim_C6_counterexample :
    makeRequestPart006 (fun s => s.length * MAX_TOKENS)
        [⟨false, "a"⟩, ⟨true, "aa"⟩] []
      = { requestSent := false, buttons := [], message := some tooLongMessage }
    ∧ budgetCheckSpec (fun s => s.length * MAX_TOKENS)
        [⟨false, "a"⟩, ⟨true, "aa"⟩]
      = some [⟨false, "a"⟩] := by
  constructor
  · decide
  · decide

/-- C6 amended: whenever the combined prompt exceeds the token budget, the
part_006 makeRequest fails immediately with the selection-too-large message,
offers no buttons and sends no model request; prior-assistant-turn context is
never dropped and the check is never retried. -/
theorem claim_C6_budget_failure (tok : String → Nat) (messages : List ChatMsg)
    (response : List Char)
    (h : countTokensInMessages tok messages > MAX_TOKENS) :
    makeRequestPart006 tok messages response
      = { requestSent := false, buttons := [], message := some tooLongMessage } := by
  simp [makeRequestPart006, h]

/-- Witness for the amended C6 at a concrete over-budget prompt. -/
theorem claim_C6_witness :
    countTokensInMessages (fun s => s.length * MAX_TOKENS)
        [⟨false, "a"⟩, ⟨true, "aa"⟩] > MAX_TOKENS
    ∧ makeRequestPart006 (fun s => s.length * MAX_TOKENS)
        [⟨false, "a"⟩, ⟨true, "aa"⟩] "response".toList
      = { requestSent := false, buttons := [], message := some tooLongMessage } :=
  ⟨by decide,
    claim_C6_budget_failure (fun s => s.length * MAX_TOKENS)
      [⟨false, "a"⟩, ⟨true, "aa"⟩] "response".toList (by decide)⟩

/-- C4 as stated is false: the extension.ts makeRequest gates its buttons on
the raw streamed response being nonempty, not on extraction, so a nonempty
response with zero fenced code blocks still gets the Show Diff & Apply
button. -/
theorem claim_C4_counterexample :
    hasFence "no code here".toList = false
    ∧ extractLastMarkdownCodeBlock "no code here".toList = []
    ∧ previewButtonTitle ∈ makeRequestButtonsV1 "no code here".toList := by
  refine ⟨by decide, by decide, ?_⟩
  simp [makeRequestButtonsV1]

/-- C4 amended: for a response with zero fenced code blocks, extraction
returns empty; the part_006 makeRequest then offers no buttons at all, and
showPreview publishes no preview; the extension.ts makeRequest however offers
its three buttons exactly when the raw response text is nonempty, regardless
of extraction. -/
theorem claim_C4_no_block_safety (tok : String → Nat) (messages : List ChatMsg)
    (oc : List Char) (t : RefTarget) (response : List Char)
    (h : extractLastMarkdownCodeBlock response = []) :
    (makeRequestPart006 tok messages response).buttons = []
    ∧ showPreview ⟨oc, response, t⟩ = none
    ∧ makeRequestButtonsV1 response
      = (if response.length > 0 then
          [previewButtonTitle, suggestNextButtonTitle, suggestAnotherButtonTitle]
        else []) := by
  refine ⟨?_, ?_, rfl⟩
  · rw [makeRequestPart006]
    split
    · rfl
    · simp [h]
  · simp [showPreview, h]

/-- Witness for the amended C4 at a concrete zero-block response. -/
theorem claim_C4_witness :
    extractLastMarkdownCodeBlock "plain advice".toList = []
    ∧ (makeRequestPart006 (fun s => s.length) [⟨false, "q"⟩]
        "plain advice".toList).buttons = []
    ∧ showPreview ⟨"orig".toList, "plain advice".toList,
        ⟨"/d.ts", 2, 0, 0, 0, 4⟩⟩ = none :=
  ⟨by decide,
    (claim_C4_no_block_safety (fun s => s.length) [⟨false, "q"⟩] "orig".toList
      ⟨"/d.ts", 2, 0, 0, 0, 4⟩ "plain advice".toList (by decide)).1,
    (claim_C4_no_block_safety (fun s => s.length) [⟨false, "q"⟩] "orig".toList
      ⟨"/d.ts", 2, 0, 0, 0, 4⟩ "plain advice".toList (by decide)).2.1⟩

/-- C7: a result whose suggestedRefactoring is the empty string produces no
affordance in any code path: the extension.ts makeRequest streams no buttons,
the followup provider offers no followups, and the part_006 makeRequest
streams no buttons either. -/
theorem claim_C7_empty_sentinel (tok : String → Nat) (messages : List ChatMsg) :
    makeRequestButtonsV1 [] = []
    ∧ provideFollowups [] = []
    ∧ (makeRequestPart006 tok messages []).buttons = [] := by
  refine ⟨rfl, rfl, ?_⟩
  rw [makeRequestPart006]
  split
  · rfl
  · rfl

/-- Embedding of getRefactoringTarget: snapshot of the document path, the
document version and the raw editor selection coordinates. -/
def getRefactoringTarget (path : String) (version : Nat) (sel : Sel) :
    RefTarget :=
  { documentPath := path
    documentVersion := version
    selectionStartLine := sel.startLine
    selectionStartCharacter := sel.startChar
    selectionEndLine := sel.endLine
    selectionEndCharacter := sel.endChar }

/-- Line of the document at the given index, empty when out of range. -/
def lineAt (text : List Char) (n : Nat) : List Char :=
  (splitOnNl text).getD n []

/-- Host document getText over a line and column range: the tail of the start
line from the start column, the full lines in between, and the head of the
end line up to the end column. -/
def getTextRange (text : List Char) (sL sC eL eC : Nat) : List Char :=
  let lines := splitOnNl text
  if sL = eL then ((lines.getD sL []).take eC).drop sC
  else
    (lines.getD sL []).drop sC
      ++ '\n' :: joinNl ((lines.drop (sL + 1)).take (eL - sL - 1)
        ++ [(lines.getD eL []).take eC])

/-- Embedding of getSelectedText: the document text from column zero of the
selection start line to the full length of the selection end line. -/
def getSelectedText (text : List Char) (sel : Sel) : List Char :=
  getTextRange text sel.startLine 0 sel.endLine (lineAt text sel.endLine).length

theorem joinNl_cons_of_ne_nil (a : List Char) (rest : List (List Char))
    (h : rest ≠ []) : joinNl (a :: rest) = a ++ '\n' :: joinNl rest := by
  cases rest with
  | nil => exact absurd rfl h
  | cons b bs => rfl

theorem getSelectedText_whole_lines (text : List Char) (sel : Sel)
    (h1 : sel.startLine ≤ sel.endLine)
    (h2 : sel.endLine < (splitOnNl text).length) :
    getSelectedText text sel
      = joinNl (((splitOnNl text).drop sel.startLine).take
          (sel.endLine - sel.startLine + 1)) := by
  have hsl : sel.startLine < (splitOnNl text).length := lt_of_le_of_lt h1 h2
  by_cases heq : sel.startLine = sel.endLine
  · rw [getSelectedText, getTextRange, if_pos heq, lineAt, heq,
      List.take_length, List.drop_zero]
    rw [show sel.endLine - sel.endLine + 1 = 1 by omega,
      List.drop_eq_getElem_cons h2, List.take_succ_cons, List.take_zero,
      List.getD_eq_getElem _ _ h2]
    rfl
  · have hlt : sel.startLine < sel.endLine := lt_of_le_of_ne h1 heq
    rw [getSelectedText, getTextRange, if_neg heq, lineAt, List.take_length,
      List.drop_zero]
    rw [show sel.endLine - sel.startLine + 1 = (sel.endLine - sel.startLine) + 1
        by omega,
      List.drop_eq_getElem_cons hsl, List.take_succ_cons,
      show sel.endLine - sel.startLine = (sel.endLine - sel.startLine - 1) + 1
        by omega,
      List.take_succ, List.getElem?_drop,
      show sel.startLine + 1 + (sel.endLine - sel.startLine - 1) = sel.endLine
        by omega,
      List.getElem?_eq_getElem h2, List.getD_eq_getElem _ _ h2,
      List.getD_eq_getElem _ _ hsl]
    rw [joinNl_cons_of_ne_nil _ _ (by simp)]
    rfl

/-- C9 as stated is false: getRefactoringTarget records the raw editor
selection coordinates, so a mid-line selection is stored with a nonzero start
column and with an end column smaller than the length of its line, even
though the captured originalCode spans whole lines. -/
theorem claim_C9_counterexample :
    (getRefactoringTarget "/e.ts" 1 ⟨0, 2, 0, 5⟩).selectionStartCharacter ≠ 0
    ∧ (getRefactoringTarget "/e.ts" 1 ⟨0, 2, 0, 5⟩).selectionEndCharacter
        ≠ (lineAt "abcdef".toList 0).length
    ∧ getSelectedText "abcdef".toList ⟨0, 2, 0, 5⟩ = "abcdef".toList := by
  refine ⟨by decide, by decide, by decide⟩

/-- C9 amended: the captured originalCode does span whole lines, from the
start of the selection start line to the end of the selection end line, but
the recorded selection coordinates are the raw editor selection, with no
forcing of the start column to zero nor of the end column to the line
length. -/
theorem claim_C9_capture_coordinates (path : String) (version : Nat)
    (sel : Sel) (text : List Char)
    (h1 : sel.startLine ≤ sel.endLine)
    (h2 : sel.endLine < (splitOnNl text).length) :
    (getRefactoringTarget path version sel).selectionStartLine = sel.startLine
    ∧ (getRefactoringTarget path version sel).selectionStartCharacter
        = sel.startChar
    ∧ (getRefactoringTarget path version sel).selectionEndLine = sel.endLine
    ∧ (getRefactoringTarget path version sel).selectionEndCharacter
        = sel.endChar
    ∧ getSelectedText text sel
        = joinNl (((splitOnNl text).drop sel.startLine).take
            (sel.endLine - sel.startLine + 1)) :=
  ⟨rfl, rfl, rfl, rfl, getSelectedText_whole_lines text sel h1 h2⟩

/-- Witness for the amended C9 at a concrete mid-line selection of a
three-line document. -/
theorem claim_C9_witness :
    (0 : Nat) ≤ 1
    ∧ (1 : Nat) < (splitOnNl "ab\ncd\nef".toList).length
    ∧ (getRefactoringTarget "/f.ts" 3 ⟨0, 1, 1, 1⟩).selectionStartCharacter = 1
    ∧ getSelectedText "ab\ncd\nef".toList ⟨0, 1, 1, 1⟩
        = joinNl (((splitOnNl "ab\ncd\nef".toList).drop 0).take 2) :=
  ⟨by decide, by decide,
    (claim_C9_capture_coordinates "/f.ts" 3 ⟨0, 1, 1, 1⟩ "ab\ncd\nef".toList
      (by decide) (by decide)).2.1,
    (claim_C9_capture_coordinates "/f.ts" 3 ⟨0, 1, 1, 1⟩ "ab\ncd\nef".toList
      (by decide) (by decide)).2.2.2.2⟩

end RefactoringAgent
